import Mathlib

/-!
# GanttStudent — verification of the timeline scheduling behaviour

Shallow embedding of the scheduling-relevant parts of the GanttStudent
repository (client `projects/view` modules and server `projects/tasks.py`
routes), together with proofs settling the frozen claims about the
natural-language specification.

Conventions:
* Dates are modelled as integer Unix timestamps (seconds).  All client
  date arithmetic in the source goes through `datetime`/`timedelta`
  objects whose relevant operations are exact integer arithmetic on
  seconds; `timedelta.days` floors towards minus infinity, which is
  `Int.fdiv · 86400`.
* A project's task mapping (`self._tasks`, a Python `dict` keyed by
  `task_uuid` preserving insertion order) is modelled as a `List Task`;
  uniqueness of uuids is carried as an explicit hypothesis where needed.
-/

namespace GanttStudent

/-- A task record, as held in `ProjectViewController._tasks` (one entry of
the JSON mapping returned by the server's `fetch-all` route).  Presentation
metadata (`name`, `description`, `colour`, `completed`, `task_type`) is
irrelevant to every scheduling operation modelled here and is omitted;
`uuid` (the `task_uuid` field) is kept inside the record because the
source compares whole task dictionaries (`other_task == task_data`), and
distinct tasks always differ in their `task_uuid` field. -/
structure Task where
  uuid : String
  row : Int
  startDate : Int
  endDate : Int
  dependencies : List String
  deriving DecidableEq, Repr


/-- Python dict lookup `self._tasks[task_uuid]` (first entry with the
given uuid; a real dict has unique keys). -/
def lookupTask (tasks : List Task) (uuid : String) : Option Task :=
  tasks.find? (fun t => t.uuid = uuid)


/-! ## `ProjectViewController.grid_updated` (client/projects/view/__init__.py)

The drop handler for a move/resize gesture.  Source behaviour:

```
new_row = row - 1
new_start_date = (self.start_date + timedelta(days=column)).timestamp()
new_end_date = (self.start_date + timedelta(days=column + cell_width)).timestamp()
if new_row == task_data["row"] and new_start_date == task_data["start_date"] \
        and new_end_date == task_data["end_date"]:
    return
for other_task in self._tasks.values():
    if other_task["row"] == row - 1 and not other_task == task_data:
        other_task["row"] = task_data["row"]
        break
task_data["row"] = new_row
task_data["start_date"] = new_start_date
task_data["end_date"] = new_end_date
```
-/

/-- The `for other_task in self._tasks.values(): ... break` loop: give the
first task that sits in `newRow` and is not (dict-equal to) the moved task
the moved task's old row, leaving everything after the `break` untouched. -/
def swapOccupant (task : Task) (newRow : Int) : List Task → List Task
  | [] => []
  | t :: ts =>
    if t.row = newRow ∧ t ≠ task then { t with row := task.row } :: ts
    else t :: swapOccupant task newRow ts


/-- `ProjectViewController.grid_updated` restricted to the state it
mutates: the task mapping.  `row`, `column`, `cellWidth` come from the
grid drop position, `windowStart` is `self.start_date` (midnight
timestamp). -/
def gridUpdated (tasks : List Task) (uuid : String)
    (row column cellWidth windowStart : Int) : List Task :=
  match lookupTask tasks uuid with
  | none => tasks
  | some task =>
    let newRow := row - 1
    let newStart := windowStart + 86400 * column
    let newEnd := windowStart + 86400 * (column + cellWidth)
    if newRow = task.row ∧ newStart = task.startDate ∧ newEnd = task.endDate then
      tasks
    else
      (swapOccupant task newRow tasks).map
        (fun t => if t.uuid = uuid then
          { t with row := newRow, startDate := newStart, endDate := newEnd }
        else t)


/-- The spec's precedence invariant, stated on the client task mapping:
for every predecessor/successor pair (`succ.dependencies` holds the ids of
the tasks `succ` depends on, i.e. `succ` is in the successor set of each
of them), the successor starts no earlier than the predecessor ends. -/
def precedenceOK (tasks : List Task) : Prop :=
  ∀ pred ∈ tasks, ∀ succ ∈ tasks,
    pred.uuid ∈ succ.dependencies → succ.startDate ≥ pred.endDate


instance (tasks : List Task) : Decidable (precedenceOK tasks) := by
  unfold precedenceOK; infer_instance


/-- Pointwise relation between a task before and after `gridUpdated`:
identity, dependencies and — for every task other than the moved one —
both dates are preserved. -/
def gridFrame (uuid : String) (t t' : Task) : Prop :=
  t'.uuid = t.uuid ∧ t'.dependencies = t.dependencies ∧
    (t.uuid ≠ uuid → t'.startDate = t.startDate ∧ t'.endDate = t.endDate)


/-! ## `ProjectViewController._on_fetch_completion` — timeline window

First-load branch (client/projects/view/__init__.py):

```
minimim_latest = datetime(*datetime.now(timezone.utc).timetuple()[:3]) + timedelta(weeks=12)
if len(self._tasks) == 0:
    self.start_date = datetime(*datetime.now(timezone.utc).timetuple()[:3])
    self.end_date = minimim_latest
else:
    self.start_date = datetime.fromtimestamp(min([task["start_date"] for task in self._tasks.values()]))
    self.end_date = datetime.fromtimestamp(max([max(minimim_latest.timestamp(), task["end_date"]) for task in self._tasks.values()]))
```
-/

/-- `timedelta(weeks=12)` in seconds. -/
def twelveWeeks : Int := 12 * 7 * 86400


/-- Python `min` over a list; only ever applied to non-empty lists in the
source (`min(...)` raises on an empty list, and the call is guarded by
`len(self._tasks) == 0`). -/
def pyMin : List Int → Int
  | [] => 0
  | x :: xs => xs.foldl min x


/-- Python `max` over a list; see `pyMin`. -/
def pyMax : List Int → Int
  | [] => 0
  | x :: xs => xs.foldl max x


/-- The window `[start_date, end_date]` computed by
`_on_fetch_completion` on first load, over the tasks' `(start_date,
end_date)` pairs; `today` is today's midnight timestamp. -/
def loadWindow (tasks : List (Int × Int)) (today : Int) : Int × Int :=
  let minimumLatest := today + twelveWeeks
  if tasks = [] then (today, minimumLatest)
  else (pyMin (tasks.map Prod.fst),
        pyMax (tasks.map (fun p => max minimumLatest p.2)))


/-! ## `ProjectViewController.render` — out-of-window reload

```
for task_uuid, task in self._tasks.items():
    start_column = (datetime.fromtimestamp(task["start_date"]) - self.start_date).days
    end_column = (datetime.fromtimestamp(task["end_date"]) - self.start_date).days
    if start_column < 0:
        project_data = self._project_data
        self.reset()
        return self.load(project_data)
    days = end_column - start_column
    ...  # place the item at (row+1, start_column, 1, days)
```
-/

/-- `(datetime.fromtimestamp(t.start_date) - self.start_date).days`;
`timedelta.days` floors towards minus infinity. -/
def startColumn (windowStart : Int) (t : Task) : Int :=
  Int.fdiv (t.startDate - windowStart) 86400


/-- `(datetime.fromtimestamp(t.end_date) - self.start_date).days`. -/
def endColumn (windowStart : Int) (t : Task) : Int :=
  Int.fdiv (t.endDate - windowStart) 86400


/-- The `render` loop, reduced to the decision it makes: `none` models
the `self.reset(); return self.load(project_data)` path (discard all
cached layout state and rebuild from the full task set), `some ps` the
normal path that places every task at `(row + 1, start_column, days)`. -/
def renderWalk (windowStart : Int) : List Task → Option (List (String × Int × Int × Int))
  | [] => some []
  | t :: ts =>
    let sc := startColumn windowStart t
    if sc < 0 then none
    else
      match renderWalk windowStart ts with
      | none => none
      | some rest =>
        some ((t.uuid, t.row + 1, sc, endColumn windowStart t - sc) :: rest)


/-! ## Server `TasksRoute.delete_task` (server/projects/tasks.py)

```
task_data = await server.db.read(..., {"task_uuid": task_uuid, "project_uuid": project_uuid})
if task_data is None:
    return server.json_payload_response(404, {"message": "Task not found."})
await server.db.erase("projects", "tasks", {"task_uuid": task_uuid})        # delete_one
if await server.db.count(..., {"project_uuid": ..., "row": {"$gt": task_data["row"]}}) > 0:
    await server.db.update_many(..., {"row": {"$gt": task_data["row"]}}, inc={"row": -1})
await server.db.update_many(..., {"project_uuid": project_uuid}, pull={"dependencies": task_uuid})
```

The store is the project's task collection.  `db.erase` is Mongo
`delete_one` (first match — uuids are unique per project), `$gt`/`$inc`
decrements rows strictly greater than the deleted row (the `count > 0`
guard is behaviourally a no-op), `$pull` drops the uuid from every
remaining task's dependency list.  `none` models the 404 response, which
is returned before any write, leaving the store unchanged. -/

def deleteTask (tasks : List Task) (uuid : String) : Option (List Task) :=
  match lookupTask tasks uuid with
  | none => none
  | some td =>
    let erased := tasks.eraseP (fun t => t.uuid = uuid)
    let shifted := erased.map
      (fun t => if td.row < t.row then { t with row := t.row - 1 } else t)
    let stripped := shifted.map
      (fun t => { t with dependencies := t.dependencies.filter (fun d => ¬ d = uuid) })
    some stripped


/-- Concrete three-task store used to exercise `deleteTask`. -/
def exDeleteStore : List Task :=
  [⟨"a", 0, 0, 86400, []⟩, ⟨"b", 1, 0, 86400, []⟩, ⟨"c", 2, 86400, 172800, ["b"]⟩]


/-! ## `TaskEditController._prompt_calender._set_date` (client .../task_edit.py)

```
if field == "start":
    self.start_date = date.timestamp()
    if self.end_date <= self.start_date:
        self.end_date = self.start_date + timedelta(days=1).total_seconds()
elif field == "end":
    self.end_date = date.timestamp()
    if self.end_date <= self.start_date:
        self.start_date = self.end_date - timedelta(days=1).total_seconds()

if self._task_data and (datetime.fromtimestamp(self.start_date)
        - self._client...project_view_controller.start_date).days < ...min_column:
    self.start_date = ...start_date.timestamp() + ...min_column * 24 * 60 * 60
```
-/

/-- The pair `(self.start_date, self.end_date)` held by the task-edit
controller. -/
structure EditDates where
  startDate : Int
  endDate : Int
  deriving DecidableEq, Repr


/-- Which date field the calendar dialog was opened for. -/
inductive DateField where
  | startField
  | endField
  deriving DecidableEq, Repr


/-- The two `field == ...` blocks of `_set_date`: assign the chosen date
and push the other bound one day away when the order would be violated. -/
def setDateRaw (field : DateField) (date : Int) (st : EditDates) : EditDates :=
  match field with
  | .startField =>
    let s := date
    let e := if st.endDate ≤ s then s + 86400 else st.endDate
    ⟨s, e⟩
  | .endField =>
    let e := date
    let s := if e ≤ st.startDate then e - 86400 else st.startDate
    ⟨s, e⟩


/-- All of `_set_date`: the two field blocks followed by the
parent-task clamp.  `editing` is the truthiness of `self._task_data`,
`ctrlStart` the project view controller's `start_date` (midnight
timestamp) and `minCol` the task item's `min_column`. -/
def setDate (field : DateField) (date : Int) (st : EditDates)
    (editing : Bool) (ctrlStart minCol : Int) : EditDates :=
  let st1 := setDateRaw field date st
  if editing = true ∧ Int.fdiv (st1.startDate - ctrlStart) 86400 < minCol then
    { st1 with startDate := ctrlStart + minCol * 86400 }
  else st1


/-! ## `TimelineGridWidget.update_all_dependencies` (client .../timeline.py)

```
def recursive_add_dependencies(task_uuid: str, dependencies: list) -> None:
    if task_uuid in tasks.keys():
        for dependency in tasks[task_uuid]["dependencies"]:
            dependencies.add(dependency)
            recursive_add_dependencies(dependency, dependencies)
```

The Python recursion has no cycle guard; we index it by fuel (recursion
depth): `none` means the available depth was exhausted.  A run of the
source terminates on an input exactly when some finite fuel suffices
here; on a dependency cycle no fuel ever suffices (the Python recursion
never returns). -/

/-- `dependencies.add(dependency)` on the accumulated set, represented
as a duplicate-free list. -/
def addDep (d : String) (acc : List String) : List String :=
  if d ∈ acc then acc else acc ++ [d]


/-- `recursive_add_dependencies`, fuel-indexed.  At each step: if the
uuid is a known task, walk its `dependencies` in order, adding each to
the set before recursing into it. -/
def recAddFuel (tasks : List Task) : Nat → String → List String → Option (List String)
  | 0, _, _ => none
  | n + 1, u, acc =>
    match lookupTask tasks u with
    | none => some acc
    | some td =>
      td.dependencies.foldl
        (fun racc d => racc.bind (fun acc' => recAddFuel tasks n d (addDep d acc')))
        (some acc)


/-- A rank function witnessing acyclicity of the dependency relation:
every dependency edge strictly decreases the rank. -/
def EdgeDecreasing (tasks : List Task) (rank : String → Nat) : Prop :=
  ∀ t ∈ tasks, ∀ d ∈ t.dependencies, rank d < rank t.uuid


instance (tasks : List Task) (rank : String → Nat) :
    Decidable (EdgeDecreasing tasks rank) := by
  unfold EdgeDecreasing; infer_instance


/-- The two-task dependency cycle `a → b → a`. -/
def cyclicPair : List Task :=
  [⟨"a", 0, 0, 86400, ["b"]⟩, ⟨"b", 1, 0, 86400, ["a"]⟩]


/-! ## Server `task_data` validation (`new_task` / `update_task`)

```
for field, validation_info in required_task_data_fields.items():
    if field in body["task_data"].keys():
        value = body["task_data"][field]
        try:
            value = validation_info[0](value)
            body["task_data"][field] = value
        except ValueError:
            return server.json_payload_response(400, ...)
        if validation_info[0] is str:
            if len(value) < validation_info[1]: return ...400...
            elif len(value) > validation_info[2]: return ...400...
    else:
        return server.json_payload_response(400, {"message": f"Missing field ..."})
for field in body["task_data"].keys():
    if field not in required_task_data_fields.keys():
        return server.json_payload_response(400, {"message": f"Invalid field ..."})
if not body["task_data"]["task_type"] in ("task", "milestone"):
    return server.json_payload_response(400, ...)
```

All of this runs before any database access.  The `except ValueError`
only catches `ValueError`; Python conversions that raise `TypeError`
(e.g. `int(None)`, `int([...])`, `list(5)`) escape the handler and
abort the request with an unhandled exception.  JSON floats and nested
objects are not modelled (no theorem touches them); Python `int(...)`
string parsing is modelled for plain optionally-signed digit strings
(underscore separators and exotic whitespace are unmodelled corners),
and `repr` of a string is modelled for quote/escape-free strings. -/

/-- JSON values as delivered by `request.json()`. -/
inductive JVal where
  | jnull
  | jbool (b : Bool)
  | jint (n : Int)
  | jstr (s : String)
  | jlist (l : List JVal)


/-- The declared field types occurring in `required_task_data_fields`. -/
inductive PyTy where
  | pyStr
  | pyInt
  | pyBool
  | pyList
  deriving DecidableEq, Repr


/-- Outcome of the Python conversion call `validation_info[0](value)`. -/
inductive ConvRes where
  | ok (v : JVal)
  | valueError
  | typeError


mutual
/-- Python `repr` of a JSON value (strings assumed quote/escape-free). -/
def pyReprOf : JVal → String
  | .jnull => "None"
  | .jbool true => "True"
  | .jbool false => "False"
  | .jint n => toString n
  | .jstr s => "'" ++ s ++ "'"
  | .jlist l => "[" ++ pyReprList l ++ "]"

/-- Comma-separated reprs of the elements of a list. -/
def pyReprList : List JVal → String
  | [] => ""
  | [v] => pyReprOf v
  | v :: vs => pyReprOf v ++ ", " ++ pyReprList vs
end


/-- Python `str(value)`: identity on strings, `repr` otherwise. -/
def pyStrOf : JVal → String
  | .jstr s => s
  | v => pyReprOf v


/-- Python `int(s)` on a string: optional surrounding whitespace, an
optional sign, then one or more digits; anything else raises
`ValueError`. -/
def parseIntPy (s : String) : Option Int :=
  let t := s.trim
  let core : Int × List Char :=
    match t.data with
    | '-' :: rest => (-1, rest)
    | '+' :: rest => (1, rest)
    | rest => (1, rest)
  if core.2 ≠ [] ∧ core.2.all Char.isDigit then
    some (core.1 *
      (core.2.foldl (fun acc c => 10 * acc + (c.toNat - '0'.toNat)) 0 : Nat))
  else none


/-- Python truthiness, for `bool(value)` (never raises). -/
def pyTruthy : JVal → Bool
  | .jnull => false
  | .jbool b => b
  | .jint n => n ≠ 0
  | .jstr s => s ≠ ""
  | .jlist [] => false
  | .jlist (_ :: _) => true


/-- Python conversion by declared type.  `str(...)` and `bool(...)`
never raise; `int(...)` raises `ValueError` on a malformed string but
`TypeError` on `None` and lists; `list(...)` iterates lists and strings
but raises `TypeError` on `None`, booleans and numbers. -/
def pyConvert : PyTy → JVal → ConvRes
  | .pyStr, v => .ok (.jstr (pyStrOf v))
  | .pyInt, .jint n => .ok (.jint n)
  | .pyInt, .jbool b => .ok (.jint (if b then 1 else 0))
  | .pyInt, .jstr s =>
    match parseIntPy s with
    | some n => .ok (.jint n)
    | none => .valueError
  | .pyInt, .jnull => .typeError
  | .pyInt, .jlist _ => .typeError
  | .pyBool, v => .ok (.jbool (pyTruthy v))
  | .pyList, .jlist l => .ok (.jlist l)
  | .pyList, .jstr s => .ok (.jlist (s.data.map (fun c => .jstr (String.mk [c]))))
  | .pyList, .jnull => .typeError
  | .pyList, .jbool _ => .typeError
  | .pyList, .jint _ => .typeError


/-- `required_task_data_fields` of `new_task`: name, declared type, and
the two string-length bounds (only read when the type is `str`, exactly
as in the source). -/
def newTaskFields : List (String × PyTy × Nat × Nat) :=
  [("task_type", .pyStr, 4, 9),
   ("name", .pyStr, 1, 20),
   ("description", .pyStr, 0, 1024),
   ("start_date", .pyInt, 0, 0),
   ("end_date", .pyInt, 0, 0),
   ("completed", .pyBool, 0, 0),
   ("colour", .pyStr, 7, 7),
   ("dependencies", .pyList, 0, 0)]


/-- `required_task_data_fields` of `update_task` (`36*2+1 = 73`). -/
def updateTaskFields : List (String × PyTy × Nat × Nat) :=
  [("_id", .pyStr, 73, 73),
   ("task_uuid", .pyStr, 36, 36),
   ("project_uuid", .pyStr, 36, 36),
   ("task_type", .pyStr, 4, 9),
   ("row", .pyInt, 0, 0),
   ("name", .pyStr, 1, 20),
   ("description", .pyStr, 0, 1024),
   ("start_date", .pyInt, 0, 0),
   ("end_date", .pyInt, 0, 0),
   ("completed", .pyBool, 0, 0),
   ("colour", .pyStr, 7, 7),
   ("dependencies", .pyList, 0, 0)]


/-- `body["task_data"]`, a JSON object as an ordered association list
with unique keys. -/
def lookupField (td : List (String × JVal)) (k : String) : Option JVal :=
  (td.find? (fun p => p.1 = k)).map Prod.snd


/-- `body["task_data"][field] = value` for an existing key. -/
def setField (td : List (String × JVal)) (k : String) (v : JVal) : List (String × JVal) :=
  td.map (fun p => if p.1 = k then (k, v) else p)


/-- Outcome of the validation section of a route.  `badRequest` is a 400
response and `crash` an unhandled exception; both happen before any
database access, so the stored tasks are unchanged in either case. -/
inductive VResult where
  | accept (td : List (String × JVal))
  | badRequest
  | crash


/-- The `for field, validation_info in required_task_data_fields.items()`
loop: presence, conversion (with only `ValueError` caught), and string
bounds. -/
def validateFields : List (String × PyTy × Nat × Nat) → List (String × JVal) → VResult
  | [], td => .accept td
  | (name, ty, lo, hi) :: rest, td =>
    match lookupField td name with
    | none => .badRequest
    | some v =>
      match pyConvert ty v with
      | .typeError => .crash
      | .valueError => .badRequest
      | .ok v' =>
        if ty = .pyStr ∧ (pyStrOf v).length < lo then .badRequest
        else if ty = .pyStr ∧ (pyStrOf v).length > hi then .badRequest
        else validateFields rest (setField td name v')


/-- The whole validation section: required-field loop, extra-field
check, `task_type` membership check. -/
def validateTaskData (schema : List (String × PyTy × Nat × Nat))
    (td : List (String × JVal)) : VResult :=
  match validateFields schema td with
  | .accept td' =>
    if td'.any (fun p => ¬ (schema.map (fun f => f.1)).contains p.1) then .badRequest
    else
      match lookupField td' "task_type" with
      | some (.jstr s) => if s = "task" ∨ s = "milestone" then .accept td' else .badRequest
      | _ => .badRequest
  | r => r


/-- A fully valid `new_task` payload. -/
def goodNewTaskData : List (String × JVal) :=
  [("task_type", .jstr "task"), ("name", .jstr "T"), ("description", .jstr ""),
   ("start_date", .jint 0), ("end_date", .jint 86400),
   ("completed", .jbool false), ("colour", .jstr "#ffffff"),
   ("dependencies", .jlist [])]


/-- The same payload with `"start_date": null`. -/
def nullStartNewTaskData : List (String × JVal) :=
  [("task_type", .jstr "task"), ("name", .jstr "T"), ("description", .jstr ""),
   ("start_date", .jnull), ("end_date", .jint 86400),
   ("completed", .jbool false), ("colour", .jstr "#ffffff"),
   ("dependencies", .jlist [])]


/-- A valid `update_task` payload except for `"start_date": null`
(uuids are 36 `x`s; `_id` is the 73-character `uuid:uuid` form). -/
def nullStartUpdateTaskData : List (String × JVal) :=
  [("_id", .jstr (String.mk (List.replicate 36 'x') ++ ":" ++ String.mk (List.replicate 36 'x'))),
   ("task_uuid", .jstr (String.mk (List.replicate 36 'x'))),
   ("project_uuid", .jstr (String.mk (List.replicate 36 'x'))),
   ("task_type", .jstr "task"), ("row", .jint 0),
   ("name", .jstr "T"), ("description", .jstr ""),
   ("start_date", .jnull), ("end_date", .jint 86400),
   ("completed", .jbool false), ("colour", .jstr "#ffffff"),
   ("dependencies", .jlist [])]


/-! ## History Manager (spec §4.4) — not present under src/

The source only creates the Undo/Redo menu actions
(`ProjectViewPage._load_ui`, view/__init__.py:164–172); no snapshot
store, undo or redo handler exists anywhere under src/.  The component
is therefore modelled from the spec. -/

/-- Modelled from the spec: the History of §3/§4.4 — an ordered sequence
of snapshots with a current index — missing from src/ (only the Undo/Redo
menu actions exist).  `σ` is the snapshot payload (project metadata plus
task mapping). -/
structure History (σ : Type) where
  snaps : List σ
  index : Nat


/-- The spec's 500-entry cap on history length. -/
def snapshotCap : Nat := 500


/-- Modelled from the spec: `snapshot(project)` — deep-copy, truncate
everything after the current index, append, cap the total length at 500
dropping the oldest, set the index to the new tail. -/
def snapshot {σ : Type} (h : History σ) (m : σ) : History σ :=
  let kept := h.snaps.take (h.index + 1)
  let appended := kept ++ [m]
  let capped :=
    if snapshotCap < appended.length then appended.drop (appended.length - snapshotCap)
    else appended
  ⟨capped, capped.length - 1⟩


/-- Modelled from the spec: `undo()` — no-op if the index is 0,
otherwise decrement the index and return the snapshot at the new
index. -/
def undo {σ : Type} (h : History σ) : History σ × Option σ :=
  if h.index = 0 then (h, none)
  else (⟨h.snaps, h.index - 1⟩, h.snaps[h.index - 1]?)


/-- Modelled from the spec: `redo()` — no-op if the index is at the
tail, otherwise increment the index and return the snapshot there. -/
def redo {σ : Type} (h : History σ) : History σ × Option σ :=
  if h.snaps.length ≤ h.index + 1 then (h, none)
  else (⟨h.snaps, h.index + 1⟩, h.snaps[h.index + 1]?)


/-- The engine state the History Manager serves: the live task mapping
plus the history. -/
structure EngineState (σ : Type) where
  current : σ
  hist : History σ


/-- Apply `undo()`: when a snapshot is returned the caller replaces the
task mapping with it, otherwise nothing changes. -/
def applyUndo {σ : Type} (st : EngineState σ) : EngineState σ :=
  match undo st.hist with
  | (h, none) => ⟨st.current, h⟩
  | (h, some m) => ⟨m, h⟩


/-- Apply `redo()`; see `applyUndo`. -/
def applyRedo {σ : Type} (st : EngineState σ) : EngineState σ :=
  match redo st.hist with
  | (h, none) => ⟨st.current, h⟩
  | (h, some m) => ⟨m, h⟩


/-- A mutating engine operation that leaves the task mapping at `m`:
per the spec, every successful mutating operation ends with exactly one
`snapshot()` call. -/
def runOp {σ : Type} (st : EngineState σ) (m : σ) : EngineState σ :=
  ⟨m, snapshot st.hist m⟩


/-! ## Dependency Editor (spec §4.2) — not present under src/

The timeline widget only *emits* `dependency_updated` on a right-button
drop (timeline.py:251–267); the handler that validates and applies the
edge toggle does not exist anywhere under src/.  The component is
modelled from the spec (§4.2, with the Placement Resolver calls of
§4.3). -/

/-- Modelled from the spec: a Task of §3 restricted to the fields the
Dependency Editor touches (`lane`, date range, `successors`). -/
structure SpecTask where
  id : String
  lane : Int
  startDate : Int
  endDate : Int
  successors : List String
  deriving DecidableEq, Repr


/-- Store lookup by task id. -/
def lookupSpec (tasks : List SpecTask) (id : String) : Option SpecTask :=
  tasks.find? (fun t => t.id = id)


/-- Modelled from the spec: Placement Resolver `setLane(id, targetLane)`
(§4.3) — missing from src/: reassign `id`'s lane and shift every other
task whose lane lies strictly between the old lane and `targetLane` by
one lane in the direction that closes the gap; no-op when the lane is
unchanged. -/
def setLane (tasks : List SpecTask) (id : String) (target : Int) : List SpecTask :=
  match lookupSpec tasks id with
  | none => tasks
  | some t =>
    if target = t.lane then tasks
    else tasks.map (fun s =>
      if s.id = id then { s with lane := target }
      else if min t.lane target < s.lane ∧ s.lane < max t.lane target then
        { s with lane := s.lane + (if t.lane < target then -1 else 1) }
      else s)


/-- Modelled from the spec: Placement Resolver `shiftForward(id, delta)`
(§4.3) — missing from src/: add `delta` to both dates of `id`, then for
each successor `s` with `s.start < id.end` apply the lane correction
(`if s.lane <= id.lane: setLane(s, id.lane)`) and recursively shift `s`
by the end-minus-start difference, depth first.  The spec notes this
recursion has no cycle guard; it is fuel-indexed here and `none` marks
fuel exhaustion (the nonterminating cyclic case). -/
def shiftForwardFuel (tasks : List SpecTask) :
    Nat → String → Int → Option (List SpecTask)
  | 0, _, _ => none
  | n + 1, id, delta =>
    match lookupSpec tasks id with
    | none => some tasks
    | some t =>
      let t1 := { t with startDate := t.startDate + delta, endDate := t.endDate + delta }
      let tasks1 := tasks.map (fun s => if s.id = id then t1 else s)
      t.successors.foldl
        (fun racc sid => racc.bind (fun ts =>
          match lookupSpec ts sid with
          | none => some ts
          | some s =>
            if s.startDate < t1.endDate then
              let ts1 := if s.lane ≤ t1.lane then setLane ts sid t1.lane else ts
              shiftForwardFuel ts1 n sid (t1.endDate - s.startDate)
            else some ts))
        (some tasks1)


/-- The Dependency Editor's error taxonomy (§7). -/
inductive EdgeError where
  | invalidEdge
  | taskNotFound
  deriving DecidableEq, Repr


/-- Modelled from the spec: `toggleEdge(fromId, toId)` (§4.2) — missing
from src/: fail `InvalidEdge` on a self-edge, fail `InvalidEdge` on an
immediate reverse edge, toggle an existing edge off, otherwise add the
edge and repair lane and date ordering through the Placement Resolver. -/
def toggleEdge (fuel : Nat) (tasks : List SpecTask) (fromId toId : String) :
    Except EdgeError (List SpecTask) :=
  if fromId = toId then .error .invalidEdge
  else
    match lookupSpec tasks fromId, lookupSpec tasks toId with
    | some ft, some tt =>
      if fromId ∈ tt.successors then .error .invalidEdge
      else if toId ∈ ft.successors then
        .ok (tasks.map (fun s =>
          if s.id = fromId then
            { s with successors := s.successors.filter (fun x => ¬ x = toId) }
          else s))
      else
        let tasks1 := tasks.map (fun s =>
          if s.id = fromId then { s with successors := s.successors ++ [toId] } else s)
        let tasks2 := if tt.lane < ft.lane then setLane tasks1 toId ft.lane else tasks1
        if tt.startDate < ft.endDate then
          match shiftForwardFuel tasks2 fuel toId (ft.endDate - tt.startDate) with
          | some ts => .ok ts
          | none => .ok tasks2
        else .ok tasks2
    | _, _ => .error .taskNotFound


/-- `toggleEdge` as the caller sees it: on failure the store is
unchanged (validation precedes every mutation). -/
def toggleEdgeApply (fuel : Nat) (tasks : List SpecTask) (fromId toId : String) :
    List SpecTask × Option EdgeError :=
  match toggleEdge fuel tasks fromId toId with
  | .ok ts => (ts, none)
  | .error e => (tasks, some e)


lemma swapOccupant_forall₂ (task : Task) (newRow : Int) (l : List Task) :
    List.Forall₂
      (fun t t' => t'.uuid = t.uuid ∧ t'.dependencies = t.dependencies ∧
        t'.startDate = t.startDate ∧ t'.endDate = t.endDate)
      l (swapOccupant task newRow l) := by
  induction l with
  | nil => exact List.Forall₂.nil
  | cons t ts ih =>
    by_cases h : t.row = newRow ∧ t ≠ task
    · simp only [swapOccupant, if_pos h]
      exact List.Forall₂.cons ⟨rfl, rfl, rfl, rfl⟩
        ((List.forall₂_same).2 (fun x _ => ⟨rfl, rfl, rfl, rfl⟩))
    · simp only [swapOccupant, if_neg h]
      exact List.Forall₂.cons ⟨rfl, rfl, rfl, rfl⟩ ih


/-- C1 (counterexample): the precedence invariant `B.start ≥ A.end` is
*not* preserved by `grid_updated`.  Tasks `a` (lane 0, days 0–3) and `b`
(lane 1, days 10–12, depending on `a`) satisfy the invariant; resizing `a`
to span days 0–20 (a drop at row 1, column 0, width 20) leaves `b`
untouched, so afterwards `b.start < a.end`. -/
theorem grid_updated_breaks_precedence :
    precedenceOK [⟨"a", 0, 0, 259200, []⟩, ⟨"b", 1, 864000, 1036800, ["a"]⟩] ∧
    gridUpdated [⟨"a", 0, 0, 259200, []⟩, ⟨"b", 1, 864000, 1036800, ["a"]⟩] "a" 1 0 20 0
      = [⟨"a", 0, 0, 1728000, []⟩, ⟨"b", 1, 864000, 1036800, ["a"]⟩] ∧
    ¬ precedenceOK [⟨"a", 0, 0, 1728000, []⟩, ⟨"b", 1, 864000, 1036800, ["a"]⟩] :=
  ⟨by decide, by rfl, by decide⟩


/-- C1 (amended): `grid_updated` — the only move/resize handler in the
source — performs no forward propagation at all: every task in the
mapping keeps its identity and dependency set, and every task other than
the moved one also keeps both of its dates.  In particular a dependant
whose start lies before the moved task's new end is never shifted, so the
precedence inequality is not restored. -/
theorem grid_updated_frame (tasks : List Task) (uuid : String)
    (row column cellWidth windowStart : Int) :
    List.Forall₂ (gridFrame uuid) tasks
      (gridUpdated tasks uuid row column cellWidth windowStart) := by
  have hrefl : ∀ l : List Task, List.Forall₂ (gridFrame uuid) l l :=
    fun l => (List.forall₂_same).2 (fun x _ => ⟨rfl, rfl, fun _ => ⟨rfl, rfl⟩⟩)
  unfold gridUpdated
  cases h : lookupTask tasks uuid with
  | none => exact hrefl tasks
  | some task =>
    simp only
    split
    · exact hrefl tasks
    · rw [List.forall₂_map_right_iff]
      refine (swapOccupant_forall₂ task (row - 1) tasks).imp ?_
      intro t t' ⟨huuid, hdeps, hstart, hend⟩
      by_cases hu : t'.uuid = uuid
      · simp only [if_pos hu]
        exact ⟨huuid, hdeps, fun hne => absurd (huuid ▸ hu) hne⟩
      · simp only [if_neg hu]
        exact ⟨huuid, hdeps, fun _ => ⟨hstart, hend⟩⟩


lemma swapOccupant_eq_map (task : Task) (r1 : Int) :
    ∀ l : List Task,
      (∀ x ∈ l, ∀ y ∈ l, (x.row = r1 ∧ x ≠ task) → (y.row = r1 ∧ y ≠ task) → x = y) →
      l.Nodup →
      swapOccupant task r1 l
        = l.map (fun t => if t.row = r1 ∧ t ≠ task then { t with row := task.row } else t) := by
  intro l
  induction l with
  | nil => intro _ _; rfl
  | cons t ts ih =>
    intro huniq hnd
    have hnots : t ∉ ts := (List.nodup_cons.1 hnd).1
    have hndts : ts.Nodup := (List.nodup_cons.1 hnd).2
    by_cases h : t.row = r1 ∧ t ≠ task
    · simp only [swapOccupant, if_pos h, List.map_cons, if_pos h]
      have heach : ∀ x ∈ ts,
          (if x.row = r1 ∧ x ≠ task then { x with row := task.row } else x) = x := by
        intro x hx
        by_cases hxm : x.row = r1 ∧ x ≠ task
        · exact absurd
            (huniq x (List.mem_cons_of_mem _ hx) t (List.mem_cons_self t ts) hxm h ▸ hx)
            hnots
        · exact if_neg hxm
      rw [List.map_congr_left heach, List.map_id' ts]
    · simp only [swapOccupant, if_neg h, List.map_cons, if_neg h]
      refine congrArg _ (ih ?_ hndts)
      intro x hx y hy hxm hym
      exact huniq x (List.mem_cons_of_mem _ hx) y (List.mem_cons_of_mem _ hy) hxm hym


/-- C2: lane exclusivity is preserved by `grid_updated`.  If all task
uuids are distinct and all rows are distinct before the drop, then after
`grid_updated` — which hands the single occupant of the target row (if
any) the moved task's old row before reassigning the moved task — all
rows are again distinct. -/
theorem grid_updated_lane_exclusive (tasks : List Task) (uuid : String)
    (row column cellWidth windowStart : Int)
    (hu : (tasks.map Task.uuid).Nodup) (hr : (tasks.map Task.row).Nodup) :
    ((gridUpdated tasks uuid row column cellWidth windowStart).map Task.row).Nodup := by
  have hl : tasks.Nodup := List.Nodup.of_map _ hu
  have huuidinj : ∀ x ∈ tasks, ∀ y ∈ tasks, x.uuid = y.uuid → x = y :=
    (List.nodup_map_iff_inj_on hl).1 hu
  have hrowinj : ∀ x ∈ tasks, ∀ y ∈ tasks, x.row = y.row → x = y :=
    (List.nodup_map_iff_inj_on hl).1 hr
  unfold gridUpdated
  cases hfind : lookupTask tasks uuid with
  | none => exact hr
  | some task =>
    simp only
    split
    · exact hr
    · have htmem : task ∈ tasks := List.mem_of_find?_eq_some hfind
      have htuuid : task.uuid = uuid := by
        have := List.find?_some hfind
        exact of_decide_eq_true this
      rw [swapOccupant_eq_map task (row - 1) tasks
        (fun x hx y hy hxm hym => hrowinj x hx y hy (hxm.1.trans hym.1.symm)) hl]
      rw [List.map_map, List.map_map]
      refine List.Nodup.map_on ?_ hl
      intro x hx y hy heq
      by_contra hne
      have hxt' : x.uuid = uuid → x = task :=
        fun h => huuidinj x hx task htmem (h.trans htuuid.symm)
      have hyt' : y.uuid = uuid → y = task :=
        fun h => huuidinj y hy task htmem (h.trans htuuid.symm)
      simp only [Function.comp_apply] at heq
      by_cases hxu : x.uuid = uuid <;> by_cases hyu : y.uuid = uuid <;>
        by_cases hxm : x.row = row - 1 ∧ x ≠ task <;>
        by_cases hym : y.row = row - 1 ∧ y ≠ task <;>
        simp [hxu, hyu, hxm, hym] at heq ⊢ <;>
        first
          | exact hne ((hxt' hxu).trans (hyt' hyu).symm)
          | exact hym.2 (hrowinj y hy task htmem (hym.1.trans heq))
          | exact hym ⟨heq.symm, fun h => hyu (h ▸ htuuid)⟩
          | exact hxm.2 (hrowinj x hx task htmem (hxm.1.trans heq.symm))
          | exact hne (hrowinj x hx y hy (hxm.1.trans hym.1.symm))
          | exact hyu ((hrowinj y hy task htmem heq.symm).symm ▸ htuuid)
          | exact hxm ⟨heq, fun h => hxu (h ▸ htuuid)⟩
          | exact hxu ((hrowinj x hx task htmem heq).symm ▸ htuuid)
          | exact hne (hrowinj x hx y hy heq)


/-- C2 witness: dropping task `a` (lane 0) onto the lane occupied by `b`
(lane 1) relocates `b` to lane 0; lanes stay pairwise distinct. -/
theorem grid_updated_lane_exclusive_witness :
    (([⟨"a", 0, 0, 259200, []⟩, ⟨"b", 1, 864000, 1036800, ["a"]⟩].map Task.uuid).Nodup ∧
     ([⟨"a", 0, 0, 259200, []⟩, ⟨"b", 1, 864000, 1036800, ["a"]⟩].map Task.row).Nodup) ∧
    ((gridUpdated [⟨"a", 0, 0, 259200, []⟩, ⟨"b", 1, 864000, 1036800, ["a"]⟩]
        "a" 2 0 3 0).map Task.row).Nodup :=
  ⟨⟨by decide, by decide⟩,
    grid_updated_lane_exclusive _ "a" 2 0 3 0 (by decide) (by decide)⟩


lemma foldl_min_le_init (xs : List Int) : ∀ a : Int, xs.foldl min a ≤ a := by
  induction xs with
  | nil => intro a; simp
  | cons x xs ih =>
    intro a
    exact le_trans (ih (min a x)) (min_le_left a x)


lemma foldl_min_le_mem (xs : List Int) : ∀ a : Int, ∀ y ∈ xs, xs.foldl min a ≤ y := by
  induction xs with
  | nil => intro a y hy; cases hy
  | cons x xs ih =>
    intro a y hy
    rw [List.foldl_cons]
    rcases List.mem_cons.1 hy with rfl | h
    · exact le_trans (foldl_min_le_init xs (min a y)) (min_le_right a y)
    · exact ih (min a x) y h


lemma foldl_min_mem (xs : List Int) :
    ∀ a : Int, xs.foldl min a = a ∨ xs.foldl min a ∈ xs := by
  induction xs with
  | nil => intro a; exact Or.inl rfl
  | cons x xs ih =>
    intro a
    rcases ih (min a x) with h | h
    · rcases min_choice a x with h' | h'
      · exact Or.inl (by rw [List.foldl_cons, h, h'])
      · exact Or.inr (by rw [List.foldl_cons, h, h']; exact List.mem_cons_self x xs)
    · exact Or.inr (List.mem_cons_of_mem x h)


lemma le_foldl_max_init (xs : List Int) : ∀ a : Int, a ≤ xs.foldl max a := by
  induction xs with
  | nil => intro a; simp
  | cons x xs ih =>
    intro a
    exact le_trans (le_max_left a x) (ih (max a x))


lemma le_foldl_max_mem (xs : List Int) : ∀ a : Int, ∀ y ∈ xs, y ≤ xs.foldl max a := by
  induction xs with
  | nil => intro a y hy; cases hy
  | cons x xs ih =>
    intro a y hy
    rw [List.foldl_cons]
    rcases List.mem_cons.1 hy with rfl | h
    · exact le_trans (le_max_right a y) (le_foldl_max_init xs (max a y))
    · exact ih (max a x) y h


lemma foldl_max_mem (xs : List Int) :
    ∀ a : Int, xs.foldl max a = a ∨ xs.foldl max a ∈ xs := by
  induction xs with
  | nil => intro a; exact Or.inl rfl
  | cons x xs ih =>
    intro a
    rcases ih (max a x) with h | h
    · rcases max_choice a x with h' | h'
      · exact Or.inl (by rw [List.foldl_cons, h, h'])
      · exact Or.inr (by rw [List.foldl_cons, h, h']; exact List.mem_cons_self x xs)
    · exact Or.inr (List.mem_cons_of_mem x h)


lemma pyMin_le (l : List Int) : ∀ y ∈ l, pyMin l ≤ y := by
  cases l with
  | nil => intro y hy; cases hy
  | cons x xs =>
    intro y hy
    rcases List.mem_cons.1 hy with rfl | h
    · exact foldl_min_le_init xs y
    · exact foldl_min_le_mem xs x y h


lemma pyMin_mem (l : List Int) (h : l ≠ []) : pyMin l ∈ l := by
  cases l with
  | nil => exact absurd rfl h
  | cons x xs =>
    rcases foldl_min_mem xs x with h' | h'
    · have hx : pyMin (x :: xs) = x := h'
      rw [hx]; exact List.mem_cons_self x xs
    · exact List.mem_cons_of_mem x h'


lemma le_pyMax (l : List Int) : ∀ y ∈ l, y ≤ pyMax l := by
  cases l with
  | nil => intro y hy; cases hy
  | cons x xs =>
    intro y hy
    rcases List.mem_cons.1 hy with rfl | h
    · exact le_foldl_max_init xs y
    · exact le_foldl_max_mem xs x y h


lemma pyMax_mem (l : List Int) (h : l ≠ []) : pyMax l ∈ l := by
  cases l with
  | nil => exact absurd rfl h
  | cons x xs =>
    rcases foldl_max_mem xs x with h' | h'
    · have hx : pyMax (x :: xs) = x := h'
      rw [hx]; exact List.mem_cons_self x xs
    · exact List.mem_cons_of_mem x h'



/-- C5: on load with no tasks the window is `[today, today + 12 weeks]`;
otherwise the window start is the minimum task start (a task's start, no
larger than any other), and the window end is the maximum of all task
ends and `today + 12 weeks` (it dominates `today + 12 weeks` and every
task end, and is one of them). -/
theorem load_window_correct (today : Int) :
    (loadWindow [] today = (today, today + twelveWeeks)) ∧
    (∀ tasks : List (Int × Int), tasks ≠ [] →
      ((loadWindow tasks today).1 ∈ tasks.map Prod.fst ∧
        ∀ s ∈ tasks.map Prod.fst, (loadWindow tasks today).1 ≤ s) ∧
      (today + twelveWeeks ≤ (loadWindow tasks today).2 ∧
        (∀ e ∈ tasks.map Prod.snd, e ≤ (loadWindow tasks today).2) ∧
        ((loadWindow tasks today).2 = today + twelveWeeks ∨
          (loadWindow tasks today).2 ∈ tasks.map Prod.snd))) := by
  constructor
  · rfl
  · intro tasks htasks
    have hwin : loadWindow tasks today
        = (pyMin (tasks.map Prod.fst),
           pyMax (tasks.map (fun p => max (today + twelveWeeks) p.2))) := by
      rw [loadWindow, if_neg htasks]
    rw [hwin]
    have hs : tasks.map Prod.fst ≠ [] := by
      intro h; exact htasks (List.map_eq_nil_iff.1 h)
    have he : tasks.map (fun p => max (today + twelveWeeks) p.2) ≠ [] := by
      intro h; exact htasks (List.map_eq_nil_iff.1 h)
    refine ⟨⟨pyMin_mem _ hs, fun s hsm => pyMin_le _ s hsm⟩, ?_, ?_, ?_⟩
    · -- end dominates today + 12 weeks
      rcases List.mem_map.1 (pyMax_mem _ he) with ⟨p, _, hp⟩
      calc today + twelveWeeks
          ≤ max (today + twelveWeeks) p.2 := le_max_left _ _
        _ = pyMax (tasks.map (fun p => max (today + twelveWeeks) p.2)) := hp
    · -- end dominates every task end
      intro e hemem
      rcases List.mem_map.1 hemem with ⟨p, hp, hpe⟩
      calc e = p.2 := hpe.symm
        _ ≤ max (today + twelveWeeks) p.2 := le_max_right _ _
        _ ≤ pyMax (tasks.map (fun p => max (today + twelveWeeks) p.2)) :=
            le_pyMax _ _ (List.mem_map.2 ⟨p, hp, rfl⟩)
    · -- end is today + 12 weeks or an actual task end
      rcases List.mem_map.1 (pyMax_mem _ he) with ⟨p, hp, hpv⟩
      rcases max_choice (today + twelveWeeks) p.2 with h' | h'
      · exact Or.inl (by rw [← hpv, h'])
      · exact Or.inr (by rw [← hpv, h']; exact List.mem_map.2 ⟨p, hp, rfl⟩)


/-- C5 witness: concrete instantiation of `load_window_correct` — one
task spanning `[86400, 172800]` with `today = 0` yields the window
`[86400, today + 12 weeks]`. -/
theorem load_window_correct_witness :
    ((loadWindow [(86400, 172800)] 0).1 ∈ [(86400, 172800)].map Prod.fst ∧
      ∀ s ∈ [(86400, 172800)].map Prod.fst, (loadWindow [(86400, 172800)] 0).1 ≤ s) ∧
    (0 + twelveWeeks ≤ (loadWindow [(86400, 172800)] 0).2 ∧
      (∀ e ∈ [(86400, 172800)].map Prod.snd, e ≤ (loadWindow [(86400, 172800)] 0).2) ∧
      ((loadWindow [(86400, 172800)] 0).2 = 0 + twelveWeeks ∨
        (loadWindow [(86400, 172800)] 0).2 ∈ [(86400, 172800)].map Prod.snd)) :=
  (load_window_correct 0).2 [(86400, 172800)] (by decide)


lemma startColumn_neg_iff (windowStart : Int) (t : Task) :
    startColumn windowStart t < 0 ↔ t.startDate < windowStart := by
  unfold startColumn
  constructor
  · intro h
    by_contra h'
    push_neg at h'
    exact absurd h (not_lt.2 (Int.fdiv_nonneg (by omega) (by norm_num)))
  · intro h
    rw [Int.fdiv_eq_ediv _ (by norm_num)]
    exact Int.ediv_neg' (by omega) (by norm_num)


/-- C7: `render` takes the reset-and-reload path exactly when some task's
start date lies strictly before the timeline window start (equivalently,
its computed start column is negative); otherwise it completes an
in-place render.  It never clamps a task or shifts the window in place:
the only two outcomes are a full reload or a placement of every task. -/
theorem render_reloads_iff (windowStart : Int) (tasks : List Task) :
    renderWalk windowStart tasks = none ↔ ∃ t ∈ tasks, t.startDate < windowStart := by
  induction tasks with
  | nil => simp [renderWalk]
  | cons t ts ih =>
    by_cases hsc : startColumn windowStart t < 0
    · simp only [renderWalk, if_pos hsc]
      constructor
      · intro _
        exact ⟨t, List.mem_cons_self t ts, (startColumn_neg_iff windowStart t).1 hsc⟩
      · intro _; trivial
    · simp only [renderWalk, if_neg hsc]
      have hts : t.startDate < windowStart ↔ False := by
        simp only [iff_false]
        intro h
        exact hsc ((startColumn_neg_iff windowStart t).2 h)
      cases hw : renderWalk windowStart ts with
      | none =>
        simp only [hw]
        constructor
        · intro _
          rcases ih.1 hw with ⟨u, hu, hlt⟩
          exact ⟨u, List.mem_cons_of_mem t hu, hlt⟩
        · intro _; trivial
      | some rest =>
        simp only [hw]
        constructor
        · intro h; cases h
        · intro h
          rcases h with ⟨u, hu, hlt⟩
          rcases List.mem_cons.1 hu with rfl | hmem
          · exact absurd hlt (hts.1 ∘ id)
          · have : renderWalk windowStart ts = none := ih.2 ⟨u, hmem, hlt⟩
            rw [hw] at this
            cases this


/-- C6: deleting an id that is not present fails (404) with no mutation;
deleting an existing task removes exactly that task (the store shrinks by
one and no remaining task carries the deleted uuid), strips the deleted
uuid from every remaining task's dependency set, and decrements by one
the row of every task whose row was strictly greater than the deleted
task's row, leaving all other fields intact. -/
theorem delete_task_correct (tasks : List Task) (uuid : String)
    (hu : (tasks.map Task.uuid).Nodup) :
    (lookupTask tasks uuid = none → deleteTask tasks uuid = none) ∧
    (∀ td, lookupTask tasks uuid = some td →
      ∃ result, deleteTask tasks uuid = some result ∧
        result.length + 1 = tasks.length ∧
        (∀ t' ∈ result, t'.uuid ≠ uuid ∧ uuid ∉ t'.dependencies) ∧
        (∀ t ∈ tasks, t.uuid ≠ uuid →
          ∃ t' ∈ result, t'.uuid = t.uuid ∧ t'.startDate = t.startDate ∧
            t'.endDate = t.endDate ∧
            t'.row = (if td.row < t.row then t.row - 1 else t.row) ∧
            t'.dependencies = t.dependencies.filter (fun d => ¬ d = uuid))) := by
  have hl : tasks.Nodup := List.Nodup.of_map _ hu
  have huuidinj : ∀ x ∈ tasks, ∀ y ∈ tasks, x.uuid = y.uuid → x = y :=
    (List.nodup_map_iff_inj_on hl).1 hu
  constructor
  · intro h
    unfold deleteTask
    rw [h]
  · intro td hfind
    have htdmem : td ∈ tasks := List.mem_of_find?_eq_some hfind
    have hfind' : tasks.find? (fun t => decide (t.uuid = uuid)) = some td := hfind
    have htduuid : td.uuid = uuid := by
      have hpd := List.find?_some hfind'
      exact of_decide_eq_true hpd
    obtain ⟨a, l₁, l₂, hl₁, hpa, hdecomp, herase⟩ :=
      @List.exists_of_eraseP Task (fun t => decide (t.uuid = uuid)) tasks td htdmem
        (decide_eq_true htduuid)
    have hamem : a ∈ tasks := by rw [hdecomp]; simp
    have hauuid : a.uuid = uuid := of_decide_eq_true hpa
    have hatd : a = td := huuidinj a hamem td htdmem (hauuid.trans htduuid.symm)
    have hanotmem : a ∉ l₁ ++ l₂ := by
      have hmid : (a :: (l₁ ++ l₂)).Nodup := List.nodup_middle.1 (hdecomp ▸ hl)
      exact (List.nodup_cons.1 hmid).1
    refine ⟨_, by unfold deleteTask; rw [hfind, herase], ?_, ?_, ?_⟩
    · -- the store shrinks by exactly one
      have hlen : tasks.length = l₁.length + (l₂.length + 1) := by
        rw [hdecomp]; simp
      simp only [List.length_map, List.length_append, hlen]
      omega
    · -- no remaining task is the deleted one or still depends on it
      intro t' ht'
      rcases List.mem_map.1 ht' with ⟨s2, hs2, rfl⟩
      rcases List.mem_map.1 hs2 with ⟨s, hs, rfl⟩
      have hsmem : s ∈ tasks := by
        rw [hdecomp]
        rcases List.mem_append.1 hs with h | h
        · exact List.mem_append.2 (Or.inl h)
        · exact List.mem_append.2 (Or.inr (List.mem_cons_of_mem a h))
      have huu : (if td.row < s.row then { s with row := s.row - 1 } else s).uuid = s.uuid := by
        by_cases h : td.row < s.row <;> simp [h]
      constructor
      · simp only [huu]
        intro hsu
        exact hanotmem (huuidinj s hsmem a hamem (hsu.trans hauuid.symm) ▸ hs)
      · intro hmem
        simp only [List.mem_filter] at hmem
        have := hmem.2
        simp at this
    · -- every other task survives with adjusted row and stripped dependencies
      intro t ht htu
      have htmem : t ∈ l₁ ++ l₂ := by
        rw [hdecomp] at ht
        rcases List.mem_append.1 ht with h | h
        · exact List.mem_append.2 (Or.inl h)
        · rcases List.mem_cons.1 h with rfl | h'
          · exact absurd hauuid htu
          · exact List.mem_append.2 (Or.inr h')
      refine ⟨_, List.mem_map.2 ⟨_, List.mem_map.2 ⟨t, htmem, rfl⟩, rfl⟩, ?_⟩
      rw [← hatd]
      by_cases h : a.row < t.row <;> simp [h]


/-- C6 witness: deleting task `b` (row 1) from a three-task store
compacts `c`'s row from 2 to 1 and removes `b` from `c`'s dependencies;
deleting a missing uuid fails. -/
theorem delete_task_correct_witness :
    (deleteTask exDeleteStore "missing" = none) ∧
    (∃ result, deleteTask exDeleteStore "b" = some result ∧
      result.length + 1 = exDeleteStore.length ∧
      (∀ t' ∈ result, t'.uuid ≠ "b" ∧ "b" ∉ t'.dependencies) ∧
      (∀ t ∈ exDeleteStore, t.uuid ≠ "b" →
        ∃ t' ∈ result, t'.uuid = t.uuid ∧ t'.startDate = t.startDate ∧
          t'.endDate = t.endDate ∧
          t'.row = (if (⟨"b", 1, 0, 86400, []⟩ : Task).row < t.row then t.row - 1 else t.row) ∧
          t'.dependencies = t.dependencies.filter (fun d => ¬ d = "b"))) :=
  ⟨(delete_task_correct exDeleteStore "missing" (by decide)).1 (by decide),
    (delete_task_correct exDeleteStore "b" (by decide)).2 ⟨"b", 1, 0, 86400, []⟩ (by decide)⟩


/-- C9 (counterexample): choosing a start date can leave
`end_date ≤ start_date`.  With a task being edited (`editing = true`,
`min_column = 10`, controller start at 0), picking start = 0 on state
`(600000, 700000)` first yields `(0, 700000)` (no reset: `700000 > 0`),
then the parent-task clamp rewrites the start to `10 · 86400 = 864000`,
which is past the end date. -/
theorem set_date_clamp_breaks_order :
    setDate .startField 0 ⟨600000, 700000⟩ true 0 10 = ⟨864000, 700000⟩ ∧
    ¬ (setDate .startField 0 ⟨600000, 700000⟩ true 0 10).startDate
        < (setDate .startField 0 ⟨600000, 700000⟩ true 0 10).endDate :=
  ⟨by decide, by decide⟩


/-- C9 (amended): whenever the parent-task clamp does not fire (in
particular whenever a new task is being created, `editing = false`),
`_set_date` leaves `end_date > start_date`; and the resets are exactly
as claimed: a start date at or past the end date resets the end date to
start + 86400, an end date at or before the start date resets the start
date to end − 86400. -/
theorem set_date_order_invariant (field : DateField) (date : Int) (st : EditDates)
    (editing : Bool) (ctrlStart minCol : Int)
    (hnoclamp : ¬(editing = true ∧
      Int.fdiv ((setDateRaw field date st).startDate - ctrlStart) 86400 < minCol)) :
    setDate field date st editing ctrlStart minCol = setDateRaw field date st ∧
    (setDateRaw field date st).startDate < (setDateRaw field date st).endDate ∧
    (field = .startField → st.endDate ≤ date →
      setDateRaw field date st = ⟨date, date + 86400⟩) ∧
    (field = .endField → date ≤ st.startDate →
      setDateRaw field date st = ⟨date - 86400, date⟩) := by
  refine ⟨by rw [setDate]; exact if_neg hnoclamp, ?_, ?_, ?_⟩
  · cases field with
    | startField =>
      simp only [setDateRaw]
      by_cases h : st.endDate ≤ date <;> (simp [h]; try omega)
    | endField =>
      simp only [setDateRaw]
      by_cases h : date ≤ st.startDate <;> (simp [h]; try omega)
  · intro hf h
    subst hf
    simp [setDateRaw, if_pos h]
  · intro hf h
    subst hf
    simp [setDateRaw, if_pos h]


/-- C9 witness: creating a new task (`editing = false`), picking
start = day 5 on state `(0, 86400)` resets the end date to day 6 and
keeps `end > start`. -/
theorem set_date_order_invariant_witness :
    setDate .startField 432000 ⟨0, 86400⟩ false 0 0 = setDateRaw .startField 432000 ⟨0, 86400⟩ ∧
    (setDateRaw .startField 432000 ⟨0, 86400⟩).startDate
      < (setDateRaw .startField 432000 ⟨0, 86400⟩).endDate ∧
    (DateField.startField = .startField → (86400 : Int) ≤ 432000 →
      setDateRaw .startField 432000 ⟨0, 86400⟩ = ⟨432000, 432000 + 86400⟩) ∧
    (DateField.startField = .endField → (432000 : Int) ≤ 0 →
      setDateRaw .startField 432000 ⟨0, 86400⟩ = ⟨432000 - 86400, 432000⟩) :=
  set_date_order_invariant .startField 432000 ⟨0, 86400⟩ false 0 0 (by decide)


lemma lookupTask_mem {tasks : List Task} {u : String} {td : Task}
    (h : lookupTask tasks u = some td) : td ∈ tasks :=
  List.mem_of_find?_eq_some h


lemma lookupTask_uuid {tasks : List Task} {u : String} {td : Task}
    (h : lookupTask tasks u = some td) : td.uuid = u := by
  have hfind : tasks.find? (fun t => decide (t.uuid = u)) = some td := h
  have hpd := List.find?_some hfind
  exact of_decide_eq_true hpd


lemma foldl_recAdd_isSome (tasks : List Task) (rank : String → Nat) (n : Nat)
    (hP : ∀ u acc, rank u < n → (recAddFuel tasks n u acc).isSome = true) :
    ∀ ds : List String, ∀ acc : List String, (∀ d ∈ ds, rank d < n) →
      (ds.foldl
        (fun racc d => racc.bind (fun acc' => recAddFuel tasks n d (addDep d acc')))
        (some acc)).isSome = true := by
  intro ds
  induction ds with
  | nil => intro acc _; rfl
  | cons d ds ih =>
    intro acc hds
    rw [List.foldl_cons, Option.some_bind]
    have hd : (recAddFuel tasks n d (addDep d acc)).isSome = true :=
      hP d (addDep d acc) (hds d (List.mem_cons_self d ds))
    rcases Option.isSome_iff_exists.1 hd with ⟨acc2, hacc2⟩
    rw [hacc2]
    exact ih acc2 (fun d' hd' => hds d' (List.mem_cons_of_mem d hd'))


lemma recAddFuel_isSome (tasks : List Task) (rank : String → Nat)
    (hrank : EdgeDecreasing tasks rank) :
    ∀ n, ∀ u acc, rank u < n → (recAddFuel tasks n u acc).isSome = true := by
  intro n
  induction n with
  | zero => intro u acc h; exact absurd h (Nat.not_lt_zero _)
  | succ n ih =>
    intro u acc h
    rw [recAddFuel]
    cases hlk : lookupTask tasks u with
    | none => rfl
    | some td =>
      refine foldl_recAdd_isSome tasks rank n ih td.dependencies acc ?_
      intro d hd
      have hlt : rank d < rank td.uuid := hrank td (lookupTask_mem hlk) d hd
      rw [lookupTask_uuid hlk] at hlt
      omega


lemma recAddFuel_cyclic : ∀ n : Nat,
    (∀ acc, recAddFuel cyclicPair n "a" acc = none) ∧
    (∀ acc, recAddFuel cyclicPair n "b" acc = none) := by
  intro n
  induction n with
  | zero => exact ⟨fun _ => rfl, fun _ => rfl⟩
  | succ n ih =>
    constructor
    · intro acc
      have hstep : recAddFuel cyclicPair (n + 1) "a" acc
          = recAddFuel cyclicPair n "b" (addDep "b" acc) := rfl
      rw [hstep, ih.2]
    · intro acc
      have hstep : recAddFuel cyclicPair (n + 1) "b" acc
          = recAddFuel cyclicPair n "a" (addDep "a" acc) := rfl
      rw [hstep, ih.1]


/-- C8: the transitive-dependency walk terminates on every acyclic task
mapping — whenever a rank function witnesses acyclicity, some finite
recursion depth completes the walk from any starting uuid — and, having
no cycle guard, it does not terminate on the two-task cycle `a ⇄ b`: no
finite recursion depth ever completes the walk from `a`. -/
theorem update_all_dependencies_termination :
    (∀ tasks : List Task, ∀ rank : String → Nat, EdgeDecreasing tasks rank →
      ∀ u acc, ∃ n, (recAddFuel tasks n u acc).isSome = true) ∧
    (∀ n acc, recAddFuel cyclicPair n "a" acc = none) := by
  constructor
  · intro tasks rank hrank u acc
    exact ⟨rank u + 1, recAddFuel_isSome tasks rank hrank (rank u + 1) u acc (by omega)⟩
  · intro n acc
    exact (recAddFuel_cyclic n).1 acc


/-- C8 witness: on the acyclic three-task store the walk from `c`
completes (depth 2 suffices), while on the cycle the walk from `a` fails
at depth 5 (and any other). -/
theorem update_all_dependencies_termination_witness :
    (∃ n, (recAddFuel exDeleteStore n "c" []).isSome = true) ∧
    recAddFuel cyclicPair 5 "a" [] = none :=
  ⟨update_all_dependencies_termination.1 exDeleteStore
      (fun u => if u = "c" then 1 else 0) (by decide) "c" [],
    update_all_dependencies_termination.2 5 []⟩


/-- C10: both routes crash, instead of answering 400, on a payload whose
only flaw is `"start_date": null` — `int(None)` raises `TypeError`,
which the `except ValueError` handler does not catch — while the same
payload with an integer start date is accepted unchanged.  (The
validation section runs before any database access, so the stored tasks
are unchanged in all three cases.) -/
theorem task_validation_crashes_on_typeerror :
    validateTaskData newTaskFields nullStartNewTaskData = .crash ∧
    validateTaskData updateTaskFields nullStartUpdateTaskData = .crash ∧
    validateTaskData newTaskFields goodNewTaskData = .accept goodNewTaskData :=
  ⟨rfl, rfl, rfl⟩


lemma snapshot_last {σ : Type} (h : History σ) (m : σ) :
    (snapshot h m).snaps[(snapshot h m).snaps.length - 1]? = some m := by
  unfold snapshot
  set kept := h.snaps.take (h.index + 1) with hkept
  by_cases hc : snapshotCap < (kept ++ [m]).length
  · simp only [if_pos hc]
    rw [List.getElem?_drop]
    have hlen : (kept ++ [m]).length = kept.length + 1 := by simp
    have hdlen : ((kept ++ [m]).drop ((kept ++ [m]).length - snapshotCap)).length
        = snapshotCap := by
      rw [List.length_drop]
      omega
    rw [hdlen]
    have harith : (kept ++ [m]).length - snapshotCap + (snapshotCap - 1) = kept.length := by
      unfold snapshotCap at hc ⊢
      omega
    rw [harith]
    exact List.getElem?_concat_length kept m
  · simp only [if_neg hc]
    have hlen : (kept ++ [m]).length = kept.length + 1 := by simp
    rw [hlen]
    simp only [Nat.add_sub_cancel]
    exact List.getElem?_concat_length kept m


/-- C3: for any mutating operation (modelled as any new task mapping
`m` recorded by the operation's single `snapshot()` call), `undo()`
followed by `redo()` restores exactly the task mapping and history
state that held immediately after the operation; moreover `undo()` at
index 0 and `redo()` at the tail are no-ops. -/
theorem undo_redo_round_trip {σ : Type} (st : EngineState σ) (m : σ) :
    (applyRedo (applyUndo (runOp st m))).current = m ∧
    (applyRedo (applyUndo (runOp st m))).hist = (runOp st m).hist ∧
    (∀ h : History σ, h.index = 0 → undo h = (h, none)) ∧
    (∀ h : History σ, h.snaps.length ≤ h.index + 1 → redo h = (h, none)) := by
  have key : applyRedo (applyUndo (runOp st m)) = ⟨m, snapshot st.hist m⟩ := by
    have hlast := snapshot_last st.hist m
    set hs := snapshot st.hist m with hhs
    have hne : hs.snaps ≠ [] := by
      intro hnil
      rw [hnil] at hlast
      simp at hlast
    have hlen : 0 < hs.snaps.length := List.length_pos.2 hne
    have hidx : hs.index = hs.snaps.length - 1 := by rw [hhs]; rfl
    have hrun : runOp st m = ⟨m, hs⟩ := by rw [runOp, ← hhs]
    rw [hrun]
    by_cases h0 : hs.index = 0
    · -- single-snapshot history: undo and redo are both no-ops
      have hu0 : undo hs = (hs, none) := by rw [undo, if_pos h0]
      have htail : hs.snaps.length ≤ hs.index + 1 := by omega
      have hr0 : redo hs = (hs, none) := by rw [redo, if_pos htail]
      simp only [applyUndo, hu0, applyRedo, hr0]
    · -- at least two snapshots: undo steps back, redo returns to the tail
      have hu : undo hs = (⟨hs.snaps, hs.index - 1⟩, hs.snaps[hs.index - 1]?) := by
        rw [undo, if_neg h0]
      have hidx1 : hs.index - 1 < hs.snaps.length := by omega
      cases hsome : hs.snaps[hs.index - 1]? with
      | none =>
        have := List.getElem?_eq_none_iff.1 hsome
        omega
      | some s =>
        rw [hsome] at hu
        have hnotail : ¬ hs.snaps.length ≤ (hs.index - 1) + 1 := by omega
        have hr : redo (⟨hs.snaps, hs.index - 1⟩ : History σ)
            = (⟨hs.snaps, hs.index - 1 + 1⟩, hs.snaps[hs.index - 1 + 1]?) := by
          rw [redo, if_neg hnotail]
        have hback : hs.index - 1 + 1 = hs.index := by omega
        rw [hback] at hr
        have hm : hs.snaps[hs.index]? = some m := by rw [hidx]; exact hlast
        rw [hm] at hr
        simp only [applyUndo, hu, applyRedo, hr]
  exact ⟨by rw [key], by rw [key]; rfl,
    fun h h0 => by rw [undo, if_pos h0],
    fun h htail => by rw [redo, if_pos htail]⟩


/-- C3 witness: a concrete round trip over `Nat` snapshots, plus a
concrete undo-at-0 and redo-at-tail no-op. -/
theorem undo_redo_round_trip_witness :
    (applyRedo (applyUndo (runOp (⟨0, ⟨[], 0⟩⟩ : EngineState Nat) 1))).current = 1 ∧
    undo (⟨[5], 0⟩ : History Nat) = (⟨[5], 0⟩, none) ∧
    redo (⟨[5], 0⟩ : History Nat) = (⟨[5], 0⟩, none) :=
  ⟨(undo_redo_round_trip ⟨0, ⟨[], 0⟩⟩ 1).1,
   (undo_redo_round_trip (⟨0, ⟨[], 0⟩⟩ : EngineState Nat) 1).2.2.1 ⟨[5], 0⟩ rfl,
   (undo_redo_round_trip (⟨0, ⟨[], 0⟩⟩ : EngineState Nat) 1).2.2.2 ⟨[5], 0⟩ (by decide)⟩


/-- C4: `toggleEdge(A, A)` always fails with `InvalidEdge` — the
self-edge check precedes every lookup and mutation — and the task store
is returned exactly as it was: every task's successor set, lane and
date range is unchanged. -/
theorem toggle_edge_self_rejected (fuel : Nat) (tasks : List SpecTask) (a : String) :
    toggleEdgeApply fuel tasks a a = (tasks, some .invalidEdge) := by
  rw [toggleEdgeApply, toggleEdge, if_pos rfl]


end GanttStudent
